import Mathlib

/-!
Shallow embedding of the SherlockChromes repository pieces referenced by the
claims: the RPN loss computation in
`models/rpn1d/region_proposal_network_1d.py`, the interval predicate
`overlaps` in `osw_utils/evaluation_parser_cluster.py`, and
`get_chromatogram_labels_and_bbox` in `utils/osw_parser.py`.

Tensors are modelled as Lean lists; the two regression channels of a tensor
of shape `(N, 2)` become a list of pairs.  A PyTorch `mean` over zero
elements is `NaN`; that undefined value is modelled as `Option.none`, so
means return `Option`.  Real-number code (`torch.log` inside
`binary_cross_entropy`) is embedded over `ℝ`; purely arithmetic code is kept
generic over a linear ordered field so that the same definitions evaluate
over `ℚ` in concrete witnesses.
-/

namespace SherlockChromes

/-- Mean of a list of field elements, `none` when the list is empty
(a PyTorch `.mean()` over zero elements is `NaN`). -/
def meanOpt {α : Type} [Field α] (l : List α) : Option α :=
  if l.length = 0 then none else some (l.sum / (l.length : α))

section SmoothL1Defs

variable {α : Type} [LinearOrderedField α]

/-- Embedding of `smoothL1_sign = (abs_in_box_diff < 1.0 / sigma_2).float()`
from `RegionProposalNetwork1d.smooth_l1_loss` (line 108): the 0/1 indicator
of the quadratic branch. -/
def smoothL1Sign (sigma2 d : α) : α :=
  if |d| < 1 / sigma2 then 1 else 0

/-- Quadratic branch `torch.pow(in_box_diff, 2) * (sigma_2 / 2.0)` of the
smooth-L1 loss (line 109). -/
def quadBranch (sigma2 d : α) : α := d ^ 2 * (sigma2 / 2)

/-- Linear branch `abs_in_box_diff - (0.5 / sigma_2)` of the smooth-L1 loss
(line 110). -/
def linBranch (sigma2 d : α) : α := |d| - 0.5 / sigma2

/-- Embedding of `in_loss_box` (lines 109-110): the per-element smooth-L1
term, blended between the two branches by the 0/1 sign. -/
def inLossBox (sigma2 d : α) : α :=
  quadBranch sigma2 d * smoothL1Sign sigma2 d
    + linBranch sigma2 d * (1 - smoothL1Sign sigma2 d)

/-- Per-anchor contribution of `smooth_l1_loss`: `out_loss_box` summed over
the two channels (`dim=[1]`).  A row carries the `(pred, target)` pair of
channel pairs and the `(inside, outside)` weight pair of channel pairs. -/
def rowLoss (sigma2 : α) (pt : (α × α) × (α × α)) (io : (α × α) × (α × α)) : α :=
  io.2.1 * inLossBox sigma2 (io.1.1 * (pt.1.1 - pt.2.1))
    + io.2.2 * inLossBox sigma2 (io.1.2 * (pt.1.2 - pt.2.2))

/-- Embedding of `RegionProposalNetwork1d.smooth_l1_loss` (lines 96-119)
with the default `dim=[1]`: element-wise smooth-L1 on
`inside_weight * (pred - target)`, scaled by `outside_weight`, summed over
the two channels and averaged over anchors. -/
def smooth_l1_loss (bbox_pred bbox_targets bbox_inside_weights bbox_outside_weights :
    List (α × α)) (sigma : α) : Option α :=
  let sigma2 := sigma ^ 2
  let rows := (bbox_pred.zip bbox_targets).zip
    (bbox_inside_weights.zip bbox_outside_weights)
  meanOpt (rows.map fun r => rowLoss sigma2 r.1 r.2)

/-- Modelled from the spec (reference definition for the regression loss):
per element `d = inside_weight * (pred - target)`; term
`0.5 * sigma^2 * d^2` when `|d| < 1 / sigma^2`, else `|d| - 0.5 / sigma^2`;
multiplied by `outside_weight`. -/
def specRegTerm (sigma iw p t ow : α) : α :=
  let d := iw * (p - t)
  ow * (if |d| < 1 / sigma ^ 2 then 0.5 * sigma ^ 2 * d ^ 2 else |d| - 0.5 / sigma ^ 2)

/-- Modelled from the spec (reference definition for the regression loss):
the spec-worded regression loss, summed over the two channels then averaged
over anchors. -/
def specRegLoss (bbox_pred bbox_targets bbox_inside_weights bbox_outside_weights :
    List (α × α)) (sigma : α) : Option α :=
  let rows := (bbox_pred.zip bbox_targets).zip
    (bbox_inside_weights.zip bbox_outside_weights)
  meanOpt (rows.map fun r =>
    specRegTerm sigma r.2.1.1 r.1.1.1 r.1.2.1 r.2.2.1
      + specRegTerm sigma r.2.1.2 r.1.1.2 r.1.2.2 r.2.2.2)

end SmoothL1Defs

/-- Embedding of `overlaps` from `osw_utils/evaluation_parser_cluster.py`
(lines 8-18): the four-clause disjunction written in the source, over the
integer bounds it is applied to. -/
def overlaps (pred_min pred_max target_min target_max : ℤ) : Bool :=
  decide ((pred_min ≤ target_min ∧ target_min ≤ pred_max ∧ pred_max ≤ target_max) ∨
    (pred_min ≤ target_min ∧ pred_max ≥ target_max) ∨
    (target_min ≤ pred_min ∧ pred_min ≤ target_max ∧ pred_max ≤ target_max) ∨
    (target_min ≤ pred_min ∧ pred_min ≤ target_max ∧ pred_max ≥ target_max))

/-- Python truthiness of an optional numeric value: `None` and the number `0`
are falsy, every other number is truthy. -/
def truthy (o : Option ℚ) : Bool :=
  match o with
  | none => false
  | some x => decide (x ≠ 0)

/-- Loop body of `get_chromatogram_labels_and_bbox` (`utils/osw_parser.py`
lines 121-127): a time point is labeled `1` when both widths are truthy and
`left_width <= time <= right_width`, else `0`. -/
def rowLabel (left_width right_width : Option ℚ) (t : ℚ) : ℕ :=
  if truthy left_width && truthy right_width then
    if left_width.getD 0 ≤ t ∧ t ≤ right_width.getD 0 then 1 else 0
  else 0

/-- Embedding of `get_chromatogram_labels_and_bbox` from
`utils/osw_parser.py` (lines 116-140): label every time point with
`rowLabel`; `np.where(row_labels == 1)[0]` becomes the index range filtered
by the label test, and `(bb_start, bb_end)` is its first and last element,
`(None, None)` when it is empty. -/
def get_chromatogram_labels_and_bbox (left_width right_width : Option ℚ)
    (times : List ℚ) : List ℕ × Option ℕ × Option ℕ :=
  let row_labels := times.map (rowLabel left_width right_width)
  let label_idxs := (List.range row_labels.length).filter
    fun i => decide (row_labels.getD i 0 = 1)
  (row_labels, label_idxs.head?, label_idxs.getLast?)

/-- Clamped logarithm used inside
`torch.nn.functional.binary_cross_entropy`: the library clamps the log
values at `-100`, keeping every per-element term finite. -/
noncomputable def logClamp (x : ℝ) : ℝ := max (Real.log x) (-100)

/-- Per-element term of `F.binary_cross_entropy`:
`-(y * log p + (1 - y) * log (1 - p))` with the clamped log. -/
noncomputable def bceTerm (p y : ℝ) : ℝ :=
  -(y * logClamp p + (1 - y) * logClamp (1 - p))

/-- Embedding of `F.binary_cross_entropy` with its default mean reduction:
the mean of the per-element terms, `none` (NaN) on empty input. -/
noncomputable def binary_cross_entropy (probs labels : List ℝ) : Option ℝ :=
  meanOpt ((probs.zip labels).map fun pl => bceTerm pl.1 pl.2)

/-- Classification block of `RegionProposalNetwork1d.rpn_loss` (lines
132-140): keep the anchors whose label is not the Ignore sentinel `-1`
(`rpn_select = (rpn_labels.data != -1).nonzero()`), then take the binary
cross-entropy of the selected probabilities against the selected labels cast
to floats. -/
noncomputable def rpn_cls_loss (rpn_cls_prob : List ℝ)
    (rpn_labels : List ℤ) : Option ℝ :=
  let sel := (rpn_cls_prob.zip rpn_labels).filter fun pl => decide (pl.2 ≠ -1)
  binary_cross_entropy (sel.map Prod.fst) (sel.map fun pl => ((pl.2 : ℤ) : ℝ))

/-- Embedding of `RegionProposalNetwork1d.rpn_loss` (lines 121-159):
classification loss plus `loss_box_weight` times the smooth-L1 regression
loss; a NaN in either component (`none`) makes the total NaN. -/
noncomputable def rpn_loss (rpn_cls_prob : List ℝ) (rpn_labels : List ℤ)
    (rpn_bbox_pred rpn_bbox_targets rpn_bbox_inside_weights
      rpn_bbox_outside_weights : List (ℝ × ℝ))
    (sigma loss_box_weight : ℝ) : Option ℝ :=
  match rpn_cls_loss rpn_cls_prob rpn_labels,
      smooth_l1_loss rpn_bbox_pred rpn_bbox_targets rpn_bbox_inside_weights
        rpn_bbox_outside_weights sigma with
  | some ce, some lb => some (ce + loss_box_weight * lb)
  | _, _ => none

/-- Python runtime errors surfaced by the embedded code paths. -/
inductive PyError : Type
  | assertionError (msg : String)
  | notImplementedError
  | nameError (missing : String)
deriving DecidableEq

/-- Result of `RegionProposalNetwork1d.forward`: a proposal array in test
mode, a scalar loss in train mode.  Both payloads are produced by external
collaborators (backbone, proposal layer, anchor target layer live outside
`src/`), so their types stay abstract. -/
inductive ForwardResult (O L : Type) : Type
  | testOutput (out : O)
  | trainLoss (l : L)

/-- Embedding of the control flow of `RegionProposalNetwork1d.forward`
(lines 161-212): in train mode `assert sequence.size()[0] == 1` fires first
(line 163), before the backbone runs or any loss is computed; then the
backbone / RPN heads / proposal layer pipeline produces its output (passed
in abstractly as `pipelineOut`, and the train-branch loss as `lossOut`,
since those collaborators are outside `src/`); finally the mode dispatch
returns the output in test mode, the loss in train mode, and raises
`NotImplementedError` for every other mode. -/
def forward {O L : Type} (mode : String) (batchSize : ℕ)
    (pipelineOut : O) (lossOut : L) : Except PyError (ForwardResult O L) :=
  if mode = "train" ∧ batchSize ≠ 1 then
    Except.error (PyError.assertionError "batch_size=1 train only")
  else if mode = "test" then Except.ok (ForwardResult.testOutput pipelineOut)
  else if mode = "train" then Except.ok (ForwardResult.trainLoss lossOut)
  else Except.error PyError.notImplementedError

/-- Names bound in the scope of `RegionProposalNetwork1d.__init__` when line
47 evaluates `out_channels[0]`: the module-level imports of
`region_proposal_network_1d.py` (lines 1-13), the class name itself, and the
parameters of `__init__` (lines 16-27).  The locals assigned before line 45
are all attributes of `self`, not bare names. -/
def initScope : List String :=
  ["copy", "np", "torch", "nn", "F", "os", "sys",
   "ChromatogramsDataset", "DepthSeparableConv1d", "generate_anchors_1d",
   "anchor_target_layer_1d", "proposal_layer_1d", "RegionProposalNetwork1d",
   "self", "model", "load_backbone", "backbone_path", "rpn_channels",
   "rpn_kernel_size", "pre_nms_topN", "nms_threshold", "post_nms_topN",
   "device", "mode"]

/-- Modelled Python name resolution for `RegionProposalNetwork1d.__init__`
(lines 16-71): building `rpn_net` (line 45) evaluates the bare name
`out_channels` (line 47); evaluating a name bound in no enclosing scope
raises `NameError`, so construction fails before an instance exists. -/
def RegionProposalNetwork1d_init (rpn_channels rpn_kernel_size pre_nms_topN
    post_nms_topN : ℕ) (nms_threshold : ℚ) (device mode : String) :
    Except PyError Unit :=
  if "out_channels" ∈ initScope then Except.ok ()
  else Except.error (PyError.nameError "out_channels")

end SherlockChromes

namespace SherlockChromes

theorem rowLoss_eq_specRow {α : Type} [LinearOrderedField α]
    (sigma : α) (pt io : (α × α) × (α × α)) :
    rowLoss (sigma ^ 2) pt io =
      specRegTerm sigma io.1.1 pt.1.1 pt.2.1 io.2.1
        + specRegTerm sigma io.1.2 pt.1.2 pt.2.2 io.2.2 := by
  unfold rowLoss specRegTerm inLossBox quadBranch linBranch smoothL1Sign
  by_cases h1 : |io.1.1 * (pt.1.1 - pt.2.1)| < 1 / sigma ^ 2 <;>
    by_cases h2 : |io.1.2 * (pt.1.2 - pt.2.2)| < 1 / sigma ^ 2 <;>
      simp only [if_pos, if_neg, h1, h2, if_true, if_false] <;> ring

/-- C1: for every prediction, target, inside-weight and outside-weight vector
and every `sigma > 0`, the regression loss computed by `smooth_l1_loss`
equals the spec's reference definition (per-element smooth-L1 on
`d = inside_weight * (pred - target)` with branch point `|d| = 1/sigma^2`,
scaled by `outside_weight`, summed over channels, averaged over anchors). -/
theorem smooth_l1_loss_eq_spec {α : Type} [LinearOrderedField α]
    (bbox_pred bbox_targets bbox_inside_weights bbox_outside_weights : List (α × α))
    (sigma : α) (hσ : 0 < sigma) :
    smooth_l1_loss bbox_pred bbox_targets bbox_inside_weights bbox_outside_weights sigma
      = specRegLoss bbox_pred bbox_targets bbox_inside_weights bbox_outside_weights sigma := by
  unfold smooth_l1_loss specRegLoss
  dsimp only
  congr 1
  refine List.map_congr_left ?_
  intro r _
  exact rowLoss_eq_specRow sigma r.1 r.2

/-- Witness for C1 at a concrete input with `sigma = 1`. -/
theorem smooth_l1_loss_eq_spec_witness :
    (0 : ℚ) < 1 ∧
      smooth_l1_loss [((3 : ℚ), 0)] [(1, 0)] [(1, 1)] [(1, 1)] 1
        = specRegLoss [((3 : ℚ), 0)] [(1, 0)] [(1, 1)] [(1, 1)] 1 :=
  ⟨by norm_num, smooth_l1_loss_eq_spec [((3 : ℚ), 0)] [(1, 0)] [(1, 1)] [(1, 1)] 1 (by norm_num)⟩

/-- C7: the smooth-L1 term is exactly `0` at zero residual, and at the branch
boundary `|d| = 1/sigma^2` the quadratic and linear branch formulas of
`in_loss_box` both evaluate to `0.5 / sigma^2`, so the per-element loss is
continuous there. -/
theorem inLossBox_zero_and_boundary {α : Type} [LinearOrderedField α]
    (sigma : α) (hσ : 0 < sigma) :
    inLossBox (sigma ^ 2) 0 = 0 ∧
      ∀ d : α, |d| = 1 / sigma ^ 2 →
        quadBranch (sigma ^ 2) d = 0.5 / sigma ^ 2 ∧
          linBranch (sigma ^ 2) d = 0.5 / sigma ^ 2 := by
  have hσ2 : (0 : α) < sigma ^ 2 := by positivity
  constructor
  · have hsign : smoothL1Sign (sigma ^ 2) (0 : α) = 1 := by
      unfold smoothL1Sign
      rw [if_pos]
      simpa using one_div_pos.mpr hσ2
    unfold inLossBox quadBranch
    rw [hsign]
    ring
  · intro d hd
    have hd2 : d ^ 2 = (1 / sigma ^ 2) ^ 2 := by
      rw [← hd, sq_abs]
    constructor
    · unfold quadBranch
      rw [hd2]
      field_simp
      ring
    · unfold linBranch
      rw [hd]
      field_simp
      ring

/-- Witness for C7 at `sigma = 1`, boundary residual `d = 1`. -/
theorem inLossBox_zero_and_boundary_witness :
    (0 : ℚ) < 1 ∧
      (inLossBox ((1 : ℚ) ^ 2) 0 = 0 ∧
        quadBranch ((1 : ℚ) ^ 2) 1 = 0.5 / (1 : ℚ) ^ 2 ∧
          linBranch ((1 : ℚ) ^ 2) 1 = 0.5 / (1 : ℚ) ^ 2) := by
  have h := inLossBox_zero_and_boundary (1 : ℚ) (by norm_num)
  have hb := h.2 1 (by norm_num)
  exact ⟨by norm_num, h.1, hb.1, hb.2⟩

/-- C9: on well-formed closed intervals, `overlaps` decides exactly interval
intersection (`pred_min ≤ target_max ∧ target_min ≤ pred_max`); in
particular it is symmetric in the two intervals. -/
theorem overlaps_iff_intersect (pred_min pred_max target_min target_max : ℤ)
    (hp : pred_min ≤ pred_max) (ht : target_min ≤ target_max) :
    (overlaps pred_min pred_max target_min target_max = true ↔
      (pred_min ≤ target_max ∧ target_min ≤ pred_max)) ∧
    overlaps pred_min pred_max target_min target_max =
      overlaps target_min target_max pred_min pred_max := by
  unfold overlaps
  constructor
  · rw [decide_eq_true_eq]
    omega
  · rw [decide_eq_decide]
    omega

/-- Witness for C9 on the intervals `[0, 2]` and `[1, 3]`. -/
theorem overlaps_iff_intersect_witness :
    ((0 : ℤ) ≤ 2 ∧ (1 : ℤ) ≤ 3) ∧
      ((overlaps 0 2 1 3 = true ↔ ((0 : ℤ) ≤ 3 ∧ (1 : ℤ) ≤ 2)) ∧
        overlaps 0 2 1 3 = overlaps 1 3 0 2) :=
  ⟨⟨by norm_num, by norm_num⟩,
    overlaps_iff_intersect 0 2 1 3 (by norm_num) (by norm_num)⟩

theorem mem_rangeFilter {n : ℕ} {p : ℕ → Bool} {i : ℕ} :
    i ∈ (List.range n).filter p ↔ i < n ∧ p i = true := by
  simp [List.mem_filter, List.mem_range]

theorem rangeFilter_pairwise (n : ℕ) (p : ℕ → Bool) :
    ((List.range n).filter p).Pairwise (· < ·) :=
  List.Pairwise.filter p (List.sorted_lt_range n)

theorem head_min {l : List ℕ} (hs : l.Pairwise (· < ·)) {j : ℕ}
    (hj : l.head? = some j) : j ∈ l ∧ ∀ k ∈ l, j ≤ k := by
  obtain ⟨t, rfl⟩ := List.head?_eq_some_iff.mp hj
  refine ⟨List.mem_cons_self _ _, ?_⟩
  intro k hk
  rcases List.mem_cons.mp hk with rfl | hk
  · exact le_refl _
  · exact le_of_lt ((List.pairwise_cons.mp hs).1 k hk)

theorem getLast_max {l : List ℕ} (hs : l.Pairwise (· < ·)) {j : ℕ}
    (hj : l.getLast? = some j) : j ∈ l ∧ ∀ k ∈ l, k ≤ j := by
  obtain ⟨ys, rfl⟩ := List.getLast?_eq_some_iff.mp hj
  refine ⟨List.mem_append_right _ (List.mem_cons_self _ _), ?_⟩
  intro k hk
  rcases List.mem_append.mp hk with hk | hk
  · exact le_of_lt
      ((List.pairwise_append.mp hs).2.2 k hk j (List.mem_cons_self _ _))
  · have : k = j := by simpa using hk
    omega

theorem rowLabel_eq_one_iff (lw rw : Option ℚ) (t : ℚ) :
    rowLabel lw rw t = 1 ↔
      (truthy lw = true ∧ truthy rw = true ∧
        lw.getD 0 ≤ t ∧ t ≤ rw.getD 0) := by
  unfold rowLabel
  cases hl : truthy lw <;> cases hr : truthy rw <;> split_ifs with h <;> simp_all

theorem rowLabel_zero_or_one (lw rw : Option ℚ) (t : ℚ) :
    rowLabel lw rw t = 1 ∨ rowLabel lw rw t = 0 := by
  unfold rowLabel
  split_ifs <;> simp

theorem getD_map_lt (lw rw : Option ℚ) (times : List ℚ) {i : ℕ}
    (hi : i < times.length) :
    (times.map (rowLabel lw rw)).getD i 0 = rowLabel lw rw (times.getD i 0) := by
  simp [List.getD_eq_getElem?_getD, List.getElem?_eq_getElem, hi]

/-- C10: `get_chromatogram_labels_and_bbox` labels position `i` with `1`
exactly when both width bounds are truthy and
`left_width ≤ times[i] ≤ right_width` (and `0` otherwise); `bb_start` and
`bb_end` are the first and last indices labeled `1`, and both are `None`
exactly when no position is labeled `1`. -/
theorem get_chromatogram_labels_and_bbox_spec (lw rw : Option ℚ)
    (times : List ℚ) (labels : List ℕ) (bbs bbe : Option ℕ)
    (hres : get_chromatogram_labels_and_bbox lw rw times = (labels, bbs, bbe)) :
    labels.length = times.length ∧
    (∀ i, i < times.length →
      ((labels.getD i 0 = 1 ↔
        (truthy lw = true ∧ truthy rw = true ∧
          lw.getD 0 ≤ times.getD i 0 ∧ times.getD i 0 ≤ rw.getD 0)) ∧
      (labels.getD i 0 = 1 ∨ labels.getD i 0 = 0))) ∧
    ((bbs = none ∧ bbe = none) ↔
      ∀ i, i < times.length → labels.getD i 0 ≠ 1) ∧
    (∀ j, bbs = some j → j < times.length ∧ labels.getD j 0 = 1 ∧
      ∀ k, k < j → labels.getD k 0 ≠ 1) ∧
    (∀ j, bbe = some j → j < times.length ∧ labels.getD j 0 = 1 ∧
      ∀ k, j < k → k < times.length → labels.getD k 0 ≠ 1) := by
  unfold get_chromatogram_labels_and_bbox at hres
  dsimp only at hres
  rw [Prod.mk.injEq, Prod.mk.injEq] at hres
  obtain ⟨h1, h2, h3⟩ := hres
  subst h1
  subst h2
  subst h3
  set lbl := times.map (rowLabel lw rw) with hlbl
  set idxs := (List.range lbl.length).filter
    (fun i => decide (lbl.getD i 0 = 1)) with hidxs
  have hlen : lbl.length = times.length := by simp [hlbl]
  have hsorted : idxs.Pairwise (· < ·) := rangeFilter_pairwise _ _
  have hmem : ∀ i, i ∈ idxs ↔ i < times.length ∧ lbl.getD i 0 = 1 := by
    intro i
    rw [hidxs, mem_rangeFilter, hlen]
    simp
  refine ⟨hlen, ?_, ?_, ?_, ?_⟩
  · intro i hi
    rw [getD_map_lt lw rw times hi]
    exact ⟨rowLabel_eq_one_iff lw rw _, rowLabel_zero_or_one lw rw _⟩
  · constructor
    · rintro ⟨hh, _⟩ i hi h1
      have : i ∈ idxs := (hmem i).mpr ⟨hi, h1⟩
      rw [List.head?_eq_none_iff.mp hh] at this
      simp at this
    · intro h
      have hnil : idxs = [] := by
        rw [hidxs, List.filter_eq_nil_iff]
        intro a ha
        have hha : a < times.length := by
          rw [← hlen]
          exact List.mem_range.mp ha
        simpa using h a hha
      rw [hnil]
      simp
  · intro j hj
    obtain ⟨hjmem, hjmin⟩ := head_min hsorted hj
    obtain ⟨hjn, hj1⟩ := (hmem j).mp hjmem
    refine ⟨hjn, hj1, ?_⟩
    intro k hk hk1
    have : j ≤ k := hjmin k ((hmem k).mpr ⟨lt_trans hk hjn, hk1⟩)
    omega
  · intro j hj
    obtain ⟨hjmem, hjmax⟩ := getLast_max hsorted hj
    obtain ⟨hjn, hj1⟩ := (hmem j).mp hjmem
    refine ⟨hjn, hj1, ?_⟩
    intro k hjk hkn hk1
    have : k ≤ j := hjmax k ((hmem k).mpr ⟨hkn, hk1⟩)
    omega

/-- Witness for C10 with bounds `[2, 4]` and times `[1, 3, 5]`: the label
vector is `[0, 1, 0]` and the bounding box is `(1, 1)`. -/
theorem get_chromatogram_labels_and_bbox_spec_witness :
    ([(0 : ℕ), 1, 0] : List ℕ).length = ([(1 : ℚ), 3, 5] : List ℚ).length ∧
      (([(0 : ℕ), 1, 0] : List ℕ).getD 1 0 = 1 ↔
        (truthy (some 2) = true ∧ truthy (some 4) = true ∧
          (some (2 : ℚ)).getD 0 ≤ ([(1 : ℚ), 3, 5] : List ℚ).getD 1 0 ∧
            ([(1 : ℚ), 3, 5] : List ℚ).getD 1 0 ≤ (some (4 : ℚ)).getD 0)) := by
  have h := get_chromatogram_labels_and_bbox_spec (some 2) (some 4)
    [1, 3, 5] [0, 1, 0] (some 1) (some 1) (by decide)
  exact ⟨h.1, (h.2.1 1 (by norm_num)).1⟩

theorem zip_map_fst_snd (xs : List (ℝ × ℤ)) :
    (xs.map Prod.fst).zip (xs.map Prod.snd) = xs := by
  rw [List.zip_map']
  simp

theorem rpn_cls_loss_eq_filter (xs : List (ℝ × ℤ)) :
    rpn_cls_loss (xs.map Prod.fst) (xs.map Prod.snd)
      = binary_cross_entropy
          ((xs.filter fun pl => decide (pl.2 ≠ -1)).map Prod.fst)
          ((xs.filter fun pl => decide (pl.2 ≠ -1)).map
            fun pl => ((pl.2 : ℤ) : ℝ)) := by
  unfold rpn_cls_loss
  rw [zip_map_fst_snd]

/-- C2: the classification component of `rpn_loss` is the binary
cross-entropy over exactly the anchors whose label is not the Ignore
sentinel `-1`: inserting an Ignore-labeled anchor anywhere changes neither
the classification loss nor the total loss, and when no anchor is Ignore the
classification loss is the plain binary cross-entropy of all anchors. -/
theorem rpn_loss_classification_ignores_ignore (l1 l2 : List (ℝ × ℤ)) (p : ℝ)
    (pred targets iw ow : List (ℝ × ℝ)) (sigma w : ℝ) :
    (rpn_cls_loss ((l1 ++ (p, -1) :: l2).map Prod.fst)
        ((l1 ++ (p, -1) :: l2).map Prod.snd)
      = rpn_cls_loss ((l1 ++ l2).map Prod.fst) ((l1 ++ l2).map Prod.snd)) ∧
    (rpn_loss ((l1 ++ (p, -1) :: l2).map Prod.fst)
        ((l1 ++ (p, -1) :: l2).map Prod.snd) pred targets iw ow sigma w
      = rpn_loss ((l1 ++ l2).map Prod.fst) ((l1 ++ l2).map Prod.snd)
          pred targets iw ow sigma w) ∧
    ((∀ x ∈ l1 ++ l2, x.2 ≠ -1) →
      rpn_cls_loss ((l1 ++ l2).map Prod.fst) ((l1 ++ l2).map Prod.snd)
        = binary_cross_entropy ((l1 ++ l2).map Prod.fst)
            ((l1 ++ l2).map fun x => ((x.2 : ℤ) : ℝ))) := by
  have hfilter : (l1 ++ (p, -1) :: l2).filter (fun pl : ℝ × ℤ => decide (pl.2 ≠ -1))
      = (l1 ++ l2).filter (fun pl : ℝ × ℤ => decide (pl.2 ≠ -1)) := by
    simp [List.filter_append, List.filter_cons]
  have hcls : rpn_cls_loss ((l1 ++ (p, -1) :: l2).map Prod.fst)
      ((l1 ++ (p, -1) :: l2).map Prod.snd)
      = rpn_cls_loss ((l1 ++ l2).map Prod.fst) ((l1 ++ l2).map Prod.snd) := by
    rw [rpn_cls_loss_eq_filter, rpn_cls_loss_eq_filter, hfilter]
  refine ⟨hcls, ?_, ?_⟩
  · unfold rpn_loss
    rw [hcls]
  · intro hall
    rw [rpn_cls_loss_eq_filter]
    have hid : (l1 ++ l2).filter (fun pl : ℝ × ℤ => decide (pl.2 ≠ -1))
        = l1 ++ l2 := by
      rw [List.filter_eq_self]
      intro a ha
      simpa using hall a ha
    rw [hid]

/-- Witness for C2 on a single foreground-labeled anchor. -/
theorem rpn_loss_classification_ignores_ignore_witness :
    (∀ x ∈ ([((1 : ℝ) / 2, (1 : ℤ))] ++ ([] : List (ℝ × ℤ))), x.2 ≠ -1) ∧
      rpn_cls_loss (([((1 : ℝ) / 2, (1 : ℤ))] ++ ([] : List (ℝ × ℤ))).map Prod.fst)
          (([((1 : ℝ) / 2, (1 : ℤ))] ++ ([] : List (ℝ × ℤ))).map Prod.snd)
        = binary_cross_entropy
            (([((1 : ℝ) / 2, (1 : ℤ))] ++ ([] : List (ℝ × ℤ))).map Prod.fst)
            (([((1 : ℝ) / 2, (1 : ℤ))] ++ ([] : List (ℝ × ℤ))).map
              fun x => ((x.2 : ℤ) : ℝ)) := by
  have hall : ∀ x ∈ ([((1 : ℝ) / 2, (1 : ℤ))] ++ ([] : List (ℝ × ℤ))),
      x.2 ≠ -1 := by
    intro x hx
    simp only [List.append_nil, List.mem_singleton] at hx
    subst hx
    decide
  exact ⟨hall,
    (rpn_loss_classification_ignores_ignore [((1 : ℝ) / 2, 1)] [] 0
      [] [] [] [] 1 1).2.2 hall⟩

/-- Counterexample to C3 as stated: with the only anchor labeled Ignore the
classification loss is not a guarded fallback value — the selection is
empty, its mean is NaN (modelled `none`). -/
theorem rpn_cls_loss_all_ignore_counterexample :
    rpn_cls_loss [(1 : ℝ) / 2] [(-1 : ℤ)] = none := by
  simp [rpn_cls_loss, binary_cross_entropy, meanOpt]

/-- C3 (amended): when every anchor is labeled Ignore, the classification
loss — and with it the total RPN loss — is undefined (`none`, NaN at
runtime): the selected set is empty and no guard or fallback exists. -/
theorem rpn_loss_all_ignore_none (probs : List ℝ) (labels : List ℤ)
    (pred targets iw ow : List (ℝ × ℝ)) (sigma w : ℝ)
    (hall : ∀ y ∈ labels, y = -1) :
    rpn_cls_loss probs labels = none ∧
      rpn_loss probs labels pred targets iw ow sigma w = none := by
  have hsel : (probs.zip labels).filter (fun pl => decide (pl.2 ≠ -1)) = [] := by
    rw [List.filter_eq_nil_iff]
    rintro ⟨a, b⟩ hab
    have hb : b ∈ labels := (List.of_mem_zip hab).2
    simp [hall b hb]
  have hcls : rpn_cls_loss probs labels = none := by
    unfold rpn_cls_loss
    dsimp only
    rw [hsel]
    simp [binary_cross_entropy, meanOpt]
  refine ⟨hcls, ?_⟩
  unfold rpn_loss
  rw [hcls]

/-- Witness for the amended C3 on a single Ignore-labeled anchor. -/
theorem rpn_loss_all_ignore_none_witness :
    (∀ y ∈ [(-1 : ℤ)], y = -1) ∧
      (rpn_cls_loss [(1 : ℝ) / 3] [(-1 : ℤ)] = none ∧
        rpn_loss [(1 : ℝ) / 3] [(-1 : ℤ)] [] [] [] [] 1 1 = none) :=
  ⟨by decide,
    rpn_loss_all_ignore_none [(1 : ℝ) / 3] [(-1)] [] [] [] [] 1 1 (by decide)⟩

theorem logClamp_nonpos {x : ℝ} (h0 : 0 ≤ x) (h1 : x ≤ 1) : logClamp x ≤ 0 :=
  max_le (Real.log_nonpos h0 h1) (by norm_num)

theorem bceTerm_nonneg {p y : ℝ} (hp0 : 0 ≤ p) (hp1 : p ≤ 1)
    (hy0 : 0 ≤ y) (hy1 : y ≤ 1) : 0 ≤ bceTerm p y := by
  have h1 : logClamp p ≤ 0 := logClamp_nonpos hp0 hp1
  have h2 : logClamp (1 - p) ≤ 0 := logClamp_nonpos (by linarith) (by linarith)
  unfold bceTerm
  nlinarith [mul_nonneg hy0 (neg_nonneg.mpr h1),
    mul_nonneg (by linarith : (0 : ℝ) ≤ 1 - y) (neg_nonneg.mpr h2)]

theorem meanOpt_ne_none {α : Type} [Field α] {l : List α} (h : l ≠ []) :
    meanOpt l = some (l.sum / (l.length : α)) := by
  unfold meanOpt
  rw [if_neg]
  simpa using h

theorem meanOpt_nonneg {α : Type} [LinearOrderedField α] {l : List α}
    (h : ∀ x ∈ l, 0 ≤ x) {v : α} (hv : meanOpt l = some v) : 0 ≤ v := by
  unfold meanOpt at hv
  by_cases hl : l.length = 0
  · rw [if_pos hl] at hv
    exact absurd hv (by simp)
  · rw [if_neg hl] at hv
    rw [Option.some.injEq] at hv
    rw [← hv]
    exact div_nonneg (List.sum_nonneg h) (by positivity)

theorem inLossBox_nonneg {α : Type} [LinearOrderedField α] (sigma d : α)
    (hσ : 0 < sigma) : 0 ≤ inLossBox (sigma ^ 2) d := by
  have hσ2 : (0 : α) < sigma ^ 2 := by positivity
  unfold inLossBox quadBranch linBranch smoothL1Sign
  by_cases h : |d| < 1 / sigma ^ 2
  · rw [if_pos h]
    nlinarith [sq_nonneg (d * sigma)]
  · rw [if_neg h]
    push_neg at h
    have h05 : (0.5 : α) / sigma ^ 2 ≤ 1 / sigma ^ 2 :=
      (div_le_div_iff_of_pos_right hσ2).mpr (by norm_num)
    nlinarith

theorem rowLoss_nonneg {α : Type} [LinearOrderedField α] (sigma : α)
    (hσ : 0 < sigma) (pt io : (α × α) × (α × α))
    (h1 : 0 ≤ io.2.1) (h2 : 0 ≤ io.2.2) : 0 ≤ rowLoss (sigma ^ 2) pt io := by
  have ha := inLossBox_nonneg sigma (io.1.1 * (pt.1.1 - pt.2.1)) hσ
  have hb := inLossBox_nonneg sigma (io.1.2 * (pt.1.2 - pt.2.2)) hσ
  unfold rowLoss
  exact add_nonneg (mul_nonneg h1 ha) (mul_nonneg h2 hb)

theorem smooth_l1_loss_some_nonneg {α : Type} [LinearOrderedField α]
    (pred targets iw ow : List (α × α)) (sigma : α) (hσ : 0 < sigma)
    (hrows : (pred.zip targets).zip (iw.zip ow) ≠ [])
    (how : ∀ o ∈ ow, 0 ≤ o.1 ∧ 0 ≤ o.2) :
    ∃ b, smooth_l1_loss pred targets iw ow sigma = some b ∧ 0 ≤ b := by
  unfold smooth_l1_loss
  dsimp only
  have hne : ((pred.zip targets).zip (iw.zip ow)).map
      (fun r => rowLoss (sigma ^ 2) r.1 r.2) ≠ [] := by
    simpa using hrows
  refine ⟨_, meanOpt_ne_none hne, meanOpt_nonneg ?_ (meanOpt_ne_none hne)⟩
  intro x hx
  obtain ⟨r, hr, rfl⟩ := List.mem_map.mp hx
  have hro : r.2.2 ∈ ow := by
    obtain ⟨a, b⟩ := r
    have hb := (List.of_mem_zip hr).2
    obtain ⟨i, o⟩ := b
    exact (List.of_mem_zip hb).2
  exact rowLoss_nonneg sigma hσ r.1 r.2 (how r.2.2 hro).1 (how r.2.2 hro).2

theorem rpn_cls_loss_some_nonneg (probs : List ℝ) (labels : List ℤ)
    (hprob : ∀ p ∈ probs, 0 ≤ p ∧ p ≤ 1)
    (hlab : ∀ y ∈ labels, y = -1 ∨ y = 0 ∨ y = 1)
    (hsel : (probs.zip labels).filter (fun pl => decide (pl.2 ≠ -1)) ≠ []) :
    ∃ c, rpn_cls_loss probs labels = some c ∧ 0 ≤ c := by
  unfold rpn_cls_loss binary_cross_entropy
  dsimp only
  rw [List.zip_map', List.map_map]
  have hne : ((probs.zip labels).filter (fun pl => decide (pl.2 ≠ -1))).map
      ((fun pl : ℝ × ℝ => bceTerm pl.1 pl.2) ∘
        fun pl : ℝ × ℤ => (pl.1, ((pl.2 : ℤ) : ℝ))) ≠ [] := by
    simpa using hsel
  refine ⟨_, meanOpt_ne_none hne, meanOpt_nonneg ?_ (meanOpt_ne_none hne)⟩
  intro x hx
  obtain ⟨pl, hpl, rfl⟩ := List.mem_map.mp hx
  obtain ⟨q, y⟩ := pl
  rw [List.mem_filter] at hpl
  have hq : q ∈ probs := (List.of_mem_zip hpl.1).1
  have hy : y ∈ labels := (List.of_mem_zip hpl.1).2
  have hy1 : y ≠ -1 := by simpa using hpl.2
  have hy01 : y = 0 ∨ y = 1 := by
    rcases hlab y hy with h | h | h
    · exact absurd h hy1
    · exact Or.inl h
    · exact Or.inr h
  have hyr : (0 : ℝ) ≤ (y : ℝ) ∧ ((y : ℝ) : ℝ) ≤ 1 := by
    rcases hy01 with rfl | rfl <;> norm_num
  exact bceTerm_nonneg (hprob q hq).1 (hprob q hq).2 hyr.1 hyr.2

/-- C4: under valid inputs — probabilities in `[0, 1]`, labels in
`{-1, 0, 1}` with at least one non-Ignore anchor, a nonempty regression
block, non-negative outside weights, `sigma > 0` and
`loss_box_weight ≥ 0` — `rpn_loss` returns exactly
`classification_loss + loss_box_weight * regression_loss`, and the total is
defined (finite: no NaN, the log being clamped) and non-negative. -/
theorem rpn_loss_decomposition_nonneg (probs : List ℝ) (labels : List ℤ)
    (pred targets iw ow : List (ℝ × ℝ)) (sigma w : ℝ)
    (hprob : ∀ p ∈ probs, 0 ≤ p ∧ p ≤ 1)
    (hlab : ∀ y ∈ labels, y = -1 ∨ y = 0 ∨ y = 1)
    (hsel : (probs.zip labels).filter (fun pl => decide (pl.2 ≠ -1)) ≠ [])
    (hrows : (pred.zip targets).zip (iw.zip ow) ≠ [])
    (how : ∀ o ∈ ow, 0 ≤ o.1 ∧ 0 ≤ o.2)
    (hσ : 0 < sigma) (hw : 0 ≤ w) :
    ∃ c b, rpn_cls_loss probs labels = some c ∧
      smooth_l1_loss pred targets iw ow sigma = some b ∧
      rpn_loss probs labels pred targets iw ow sigma w = some (c + w * b) ∧
      0 ≤ c ∧ 0 ≤ b ∧ 0 ≤ c + w * b := by
  obtain ⟨c, hc, hc0⟩ := rpn_cls_loss_some_nonneg probs labels hprob hlab hsel
  obtain ⟨b, hb, hb0⟩ := smooth_l1_loss_some_nonneg pred targets iw ow sigma hσ
    hrows how
  refine ⟨c, b, hc, hb, ?_, hc0, hb0, ?_⟩
  · unfold rpn_loss
    rw [hc, hb]
  · have := mul_nonneg hw hb0
    linarith

/-- Witness for C4 on one labeled anchor and one regression row. -/
theorem rpn_loss_decomposition_nonneg_witness :
    ∃ c b, rpn_cls_loss [(1 : ℝ) / 2] [(1 : ℤ)] = some c ∧
      smooth_l1_loss [((0 : ℝ), 0)] [(0, 0)] [(1, 1)] [(1, 1)] 1 = some b ∧
      rpn_loss [(1 : ℝ) / 2] [(1 : ℤ)] [(0, 0)] [(0, 0)] [(1, 1)] [(1, 1)] 1 1
        = some (c + 1 * b) ∧ 0 ≤ c ∧ 0 ≤ b ∧ 0 ≤ c + 1 * b :=
  rpn_loss_decomposition_nonneg [(1 : ℝ) / 2] [(1 : ℤ)] [(0, 0)] [(0, 0)]
    [(1, 1)] [(1, 1)] 1 1
    (by
      intro p hp
      rw [List.mem_singleton] at hp
      subst hp
      norm_num)
    (by decide)
    (by simp)
    (by simp)
    (by
      intro o ho
      rw [List.mem_singleton] at ho
      subst ho
      norm_num)
    (by norm_num) (by norm_num)

/-- C5: in train mode, `forward` asserts `batch_size == 1` before the
backbone runs or any loss is computed: for every batch size other than `1`
the call aborts with the descriptive assertion message, whatever values the
pipeline or the loss computation would have produced, and never returns a
normal result. -/
theorem forward_train_batch_assert {O L : Type} (batchSize : ℕ)
    (pipelineOut : O) (lossOut : L) (hb : batchSize ≠ 1) :
    forward "train" batchSize pipelineOut lossOut
        = Except.error (PyError.assertionError "batch_size=1 train only") ∧
      ∀ r, forward "train" batchSize pipelineOut lossOut ≠ Except.ok r := by
  unfold forward
  rw [if_pos ⟨rfl, hb⟩]
  exact ⟨rfl, fun r h => Except.noConfusion h⟩

/-- Witness for C5 at batch size `2`. -/
theorem forward_train_batch_assert_witness :
    (2 : ℕ) ≠ 1 ∧
      forward "train" 2 () ()
        = Except.error (PyError.assertionError "batch_size=1 train only") :=
  ⟨by decide, (forward_train_batch_assert 2 () () (by decide)).1⟩

/-- C6: for every mode other than `"train"` and `"test"`, `forward` raises
`NotImplementedError` at call time and never returns a normal result. -/
theorem forward_unknown_mode {O L : Type} (mode : String) (batchSize : ℕ)
    (pipelineOut : O) (lossOut : L)
    (hm1 : mode ≠ "train") (hm2 : mode ≠ "test") :
    forward mode batchSize pipelineOut lossOut
        = Except.error PyError.notImplementedError ∧
      ∀ r, forward mode batchSize pipelineOut lossOut ≠ Except.ok r := by
  unfold forward
  rw [if_neg (fun h => hm1 h.1), if_neg hm2, if_neg hm1]
  exact ⟨rfl, fun r h => Except.noConfusion h⟩

/-- Witness for C6 at mode `"eval"`. -/
theorem forward_unknown_mode_witness :
    (("eval" : String) ≠ "train" ∧ ("eval" : String) ≠ "test") ∧
      forward "eval" 1 () () = Except.error PyError.notImplementedError :=
  ⟨⟨by decide, by decide⟩,
    (forward_unknown_mode "eval" 1 () () (by decide) (by decide)).1⟩

/-- C8: for every choice of constructor arguments, constructing
`RegionProposalNetwork1d` raises a `NameError` for `out_channels`: the name
used to build `rpn_net` is bound in no enclosing scope, so no instance is
ever created. -/
theorem init_raises_name_error (rpn_channels rpn_kernel_size pre_nms_topN
    post_nms_topN : ℕ) (nms_threshold : ℚ) (device mode : String) :
    RegionProposalNetwork1d_init rpn_channels rpn_kernel_size pre_nms_topN
        post_nms_topN nms_threshold device mode
      = Except.error (PyError.nameError "out_channels") := by
  unfold RegionProposalNetwork1d_init
  rw [if_neg (by decide)]

end SherlockChromes
